import Mathlib

set_option maxRecDepth 100000

/-!
Verification development for the Trust & Audit Integrity Subsystem of the
Academic-Transcript repository.  All definitions are shallow embeddings of
the Deno/TypeScript edge functions and the SQL rate-limit function; machine
integers are modelled as `Nat` with explicit `&&& 0xffffffff` masks where
32-bit overflow matters (SHA-256), and time (`Date.now()`, SQL `now()`) is
passed as an explicit `Nat` parameter.
-/

/-! ## SHA-256 (crypto.subtle.digest with the SHA-256 algorithm)

Executable SHA-256 over byte lists, used by `MerkleTree.hash` and
`createAuditChain` in supabase/functions/blockchain-audit/index.ts.
All hash inputs in those code paths are ASCII strings (hex digests and
JSON text), for which UTF-8 bytes coincide with the character codes. -/

def mask32 (x : Nat) : Nat := x &&& 0xffffffff

def rotr32 (n x : Nat) : Nat := mask32 ((x >>> n) ||| (x <<< (32 - n)))

/-- The 64 SHA-256 round constants (decimal). -/
def sha256K : List Nat :=
  [1116352408, 1899447441, 3049323471, 3921009573, 961987163, 1508970993,
   2453635748, 2870763221, 3624381080, 310598401, 607225278, 1426881987,
   1925078388, 2162078206, 2614888103, 3248222580, 3835390401, 4022224774,
   264347078, 604807628, 770255983, 1249150122, 1555081692, 1996064986,
   2554220882, 2821834349, 2952996808, 3210313671, 3336571891, 3584528711,
   113926993, 338241895, 666307205, 773529912, 1294757372, 1396182291,
   1695183700, 1986661051, 2177026350, 2456956037, 2730485921, 2820302411,
   3259730800, 3345764771, 3516065817, 3600352804, 4094571909, 275423344,
   430227734, 506948616, 659060556, 883997877, 958139571, 1322822218,
   1537002063, 1747873779, 1955562222, 2024104815, 2227730452, 2361852424,
   2428436474, 2756734187, 3204031479, 3329325298]

/-- Big-endian byte expansion of `n` into `count` bytes. -/
def beBytes (n count : Nat) : List Nat :=
  (List.range count).map (fun i => (n >>> (8 * (count - 1 - i))) &&& 0xff)

/-- SHA-256 message padding: append 0x80, zero bytes, and the 64-bit
big-endian bit length, reaching a multiple of 64 bytes. -/
def sha256pad (m : List Nat) : List Nat :=
  m ++ 0x80 :: List.replicate ((64 - ((m.length + 9) % 64)) % 64) 0 ++ beBytes (8 * m.length) 8

/-- Pack bytes into big-endian 32-bit words. -/
def toWords : List Nat → List Nat
  | b0 :: b1 :: b2 :: b3 :: rest => (((b0 * 256 + b1) * 256 + b2) * 256 + b3) :: toWords rest
  | _ => []

/-- Split a byte list into 64-byte chunks (fuel-driven structural recursion so
the kernel can evaluate it; the fuel is always sufficient at the call site). -/
def chunks64Go : Nat → List Nat → List (List Nat)
  | _, [] => []
  | 0, l => [l]
  | fuel + 1, a :: rest => (a :: rest.take 63) :: chunks64Go fuel (rest.drop 63)

def chunks64 (l : List Nat) : List (List Nat) := chunks64Go l.length l

/-- Working state of the SHA-256 compression function. -/
structure Sha256State where
  a : Nat
  b : Nat
  c : Nat
  d : Nat
  e : Nat
  f : Nat
  g : Nat
  h : Nat

def sha256init : Sha256State :=
  ⟨0x6a09e667, 0xbb67ae85, 0x3c6ef372, 0xa54ff53a, 0x510e527f, 0x9b05688c, 0x1f83d9ab, 0x5be0cd19⟩

/-- One message-schedule extension step: append word `i = w.length`. -/
def extendW1 (w : List Nat) : List Nat :=
  let i := w.length
  let w15 := w.getD (i - 15) 0
  let w2 := w.getD (i - 2) 0
  let s0 := rotr32 7 w15 ^^^ rotr32 18 w15 ^^^ (w15 >>> 3)
  let s1 := rotr32 17 w2 ^^^ rotr32 19 w2 ^^^ (w2 >>> 10)
  w ++ [mask32 (w.getD (i - 16) 0 + s0 + w.getD (i - 7) 0 + s1)]

/-- Extend the 16 message-schedule words to 64. -/
def extendW (w : List Nat) : List Nat := Nat.rec w (fun _ acc => extendW1 acc) 48

/-- One round of the SHA-256 compression function. -/
def sha256round (s : Sha256State) (kw : Nat × Nat) : Sha256State :=
  let S1 := rotr32 6 s.e ^^^ rotr32 11 s.e ^^^ rotr32 25 s.e
  let ch := (s.e &&& s.f) ^^^ ((s.e ^^^ 0xffffffff) &&& s.g)
  let temp1 := mask32 (s.h + S1 + ch + kw.1 + kw.2)
  let S0 := rotr32 2 s.a ^^^ rotr32 13 s.a ^^^ rotr32 22 s.a
  let maj := (s.a &&& s.b) ^^^ (s.a &&& s.c) ^^^ (s.b &&& s.c)
  let temp2 := mask32 (S0 + maj)
  ⟨mask32 (temp1 + temp2), s.a, s.b, s.c, mask32 (s.d + temp1), s.e, s.f, s.g⟩

/-- Process one 64-byte block. -/
def sha256block (s : Sha256State) (block : List Nat) : Sha256State :=
  let ws := extendW (toWords block)
  let t := (sha256K.zip ws).foldl sha256round s
  ⟨mask32 (s.a + t.a), mask32 (s.b + t.b), mask32 (s.c + t.c), mask32 (s.d + t.d),
   mask32 (s.e + t.e), mask32 (s.f + t.f), mask32 (s.g + t.g), mask32 (s.h + t.h)⟩

/-- SHA-256 digest of a byte list, as 32 bytes. -/
def sha256 (m : List Nat) : List Nat :=
  let s := (chunks64 (sha256pad m)).foldl sha256block sha256init
  [s.a, s.b, s.c, s.d, s.e, s.f, s.g, s.h].flatMap (fun w => beBytes w 4)

def hexChar (n : Nat) : Char := "0123456789abcdef".toList.getD n '0'

def byteHex (b : Nat) : List Char := [hexChar (b / 16), hexChar (b % 16)]

/-- Bytes of an ASCII string (UTF-8 agrees with the code points here). -/
def strBytes (s : String) : List Nat := s.toList.map Char.toNat

/-- Hex-encoded SHA-256 of a string: the
`Array.from(new Uint8Array(digest)).map(b => b.toString(16).padStart(2, zero)).join()`
idiom used throughout blockchain-audit/index.ts. -/
def sha256hex (s : String) : String := String.mk ((sha256 (strBytes s)).flatMap byteHex)

/-- Sanity check against the FIPS 180-4 test vector for the message abc. -/
theorem sha256hex_test_vector :
    sha256hex "abc" = "ba7816bf8f01cfea414140de5dae2223b00361a396177a9cb410ff61f20015ad" := by
  decide

/-! ## MerkleTree (class MerkleTree, blockchain-audit/index.ts)

The constructor hashes each data item into the leaf list; `getRoot`
pairwise-hashes adjacent nodes, carrying an unpaired trailing node up
unchanged, until one node remains.  The while loop is modelled with fuel
(`leaves.length` iterations always suffice since each level at least
halves a level of length at least two). -/

structure MerkleTree where
  leaves : List String
deriving DecidableEq

/-- `new MerkleTree(data)`: leaves are the SHA-256 digests of the items. -/
def MerkleTree.ofData (data : List String) : MerkleTree := ⟨data.map sha256hex⟩

/-- `pairwiseHash(left, right) = hash(left + right)`. -/
def pairwiseHash (left right : String) : String := sha256hex (left ++ right)

/-- One level of the `getRoot` loop: pair adjacent nodes, hash each pair, and
push a trailing unpaired node unchanged. -/
def nextLevel : List String → List String
  | [] => []
  | [x] => [x]
  | x :: y :: rest => pairwiseHash x y :: nextLevel rest

/-- The while loop of `getRoot`, driven by fuel. -/
def getRootGo : Nat → List String → List String
  | 0, level => level
  | fuel + 1, level => if level.length > 1 then getRootGo fuel (nextLevel level) else level

/-- `MerkleTree.getRoot()`: empty tree gives the empty string, a single leaf is
its own root, otherwise iterate `nextLevel` until one node remains. -/
def MerkleTree.getRoot (t : MerkleTree) : String :=
  if t.leaves.length = 0 then ""
  else if t.leaves.length = 1 then t.leaves.getD 0 ""
  else (getRootGo t.leaves.length t.leaves).getD 0 ""

/-! ## createAuditChain and the simulated batch anchor (blockchain-audit/index.ts)

`createAuditChain` receives the audit events already serialised to their
canonical JSON strings (the source maps each event through JSON.stringify
before hashing); `Date.now()` is the explicit `now` parameter.  The block
data object literal is serialised with the exact key order of the source
(`previousHash`, `merkleRoot`, `timestamp`, `eventCount`). -/

def jsonStr (s : String) : String := "\"" ++ s ++ "\""

/-- `JSON.stringify(blockData)` for the block-data object literal. -/
def blockDataJson (previousHash merkleRoot : String) (timestamp eventCount : Nat) : String :=
  "\x7b\"previousHash\":" ++ jsonStr previousHash ++
  ",\"merkleRoot\":" ++ jsonStr merkleRoot ++
  ",\"timestamp\":" ++ toString timestamp ++
  ",\"eventCount\":" ++ toString eventCount ++ "\x7d"

structure AuditChain where
  previousHash : String
  currentHash : String
  merkleRoot : String
  timestamp : Nat
deriving DecidableEq

/-- The genesis previous-hash constant, 64 zero characters. -/
def genesisHash : String := String.mk (List.replicate 64 '0')

/-- `createAuditChain(auditEvents, previousHash)`; `now` is the value of the
`Date.now()` call embedded in the block data. -/
def createAuditChain (eventJsons : List String) (previousHash : String) (now : Nat) :
    AuditChain :=
  let eventHashes := eventJsons.map sha256hex
  let merkleRoot := (MerkleTree.ofData eventHashes).getRoot
  let currentHash := sha256hex (blockDataJson previousHash merkleRoot now eventJsons.length)
  ⟨previousHash, currentHash, merkleRoot, now⟩

/-- `JSON.stringify(metadata)` for the batch metadata object. -/
def metadataJson (eventCount firstEventTime lastEventTime : Nat) : String :=
  "\x7b\"eventCount\":" ++ toString eventCount ++
  ",\"firstEventTime\":" ++ toString firstEventTime ++
  ",\"lastEventTime\":" ++ toString lastEventTime ++ "\x7d"

/-- `JSON.stringify(batchData)` where `batchData = spread of auditChain plus metadata`. -/
def batchDataJson (c : AuditChain) (metadata : String) : String :=
  "\x7b\"previousHash\":" ++ jsonStr c.previousHash ++
  ",\"currentHash\":" ++ jsonStr c.currentHash ++
  ",\"merkleRoot\":" ++ jsonStr c.merkleRoot ++
  ",\"timestamp\":" ++ toString c.timestamp ++
  ",\"metadata\":" ++ metadata ++ "\x7d"

/-- `recordAuditBatch(null, auditChain, metadata)`: the simulation path taken
when no blockchain is configured (initAuditBlockchain returns null); the batch
id is the SHA-256 of the serialised batch data. -/
def recordAuditBatchSim (c : AuditChain) (metadata : String) : String :=
  sha256hex (batchDataJson c metadata)


/-! ## process_batch handler state (blockchain-audit/index.ts, serve handler)

Database state touched by the process_batch action: the audit_logs rows
(each carrying its canonical serialised AuditEvent in `payload`; the list is
maintained in created_at ascending order, matching the order-by of the
drain query) and the audit_batches rows (newest first, matching the
order-by-created_at-descending-limit-1 lookup).  The two `Bool` flags model
the two independent database writes failing (the source only logs
`batchError` and `updateError` and continues). -/

structure AuditLogRow where
  id : Nat
  payload : String
  createdAt : Nat
  blockchainTx : Option String
deriving DecidableEq

structure AuditBatchRow where
  batchId : String
  previousHash : String
  currentHash : String
  merkleRoot : String
  eventCount : Nat
  blockchainTx : String
  createdAt : Nat
deriving DecidableEq

structure AuditDb where
  auditLogs : List AuditLogRow
  auditBatches : List AuditBatchRow
deriving DecidableEq

inductive BatchResp where
  | noPending
  | processed (batchId merkleRoot currentHash : String) (count : Nat)
deriving DecidableEq

def listMin : List Nat → Nat
  | [] => 0
  | a :: rest => rest.foldl Nat.min a

def listMax : List Nat → Nat
  | [] => 0
  | a :: rest => rest.foldl Nat.max a

/-- The drain query: audit_logs with blockchain_tx null, oldest first, limit 100. -/
def pendingOf (db : AuditDb) : List AuditLogRow :=
  (db.auditLogs.filter (fun l => l.blockchainTx.isNone)).take 100

/-- current_hash of the latest stored batch, or the genesis constant. -/
def latestStoredHash (db : AuditDb) : String :=
  match db.auditBatches.head? with
  | some b => b.currentHash
  | none => genesisHash

/-- The process_batch action of the blockchain-audit serve handler (simulation
anchoring mode).  `now` is `Date.now()`; `batchInsertFails` and `updateFails`
model the audit_batches insert and the audit_logs update being rejected by the
store (the handler logs such errors and continues). -/
def processBatch (db : AuditDb) (now : Nat) (batchInsertFails updateFails : Bool) :
    BatchResp × AuditDb :=
  let pending := pendingOf db
  if pending.isEmpty then (BatchResp.noPending, db)
  else
    let eventJsons := pending.map (fun l => l.payload)
    let previousHash := latestStoredHash db
    let chain := createAuditChain eventJsons previousHash now
    let ts := pending.map (fun l => l.createdAt)
    let metadata := metadataJson pending.length (listMin ts) (listMax ts)
    let batchId := recordAuditBatchSim chain metadata
    let batches' :=
      if batchInsertFails then db.auditBatches
      else ⟨batchId, chain.previousHash, chain.currentHash, chain.merkleRoot,
            pending.length, batchId, chain.timestamp⟩ :: db.auditBatches
    let pendingIds := pending.map (fun l => l.id)
    let logs' :=
      if updateFails then db.auditLogs
      else db.auditLogs.map (fun l =>
        if pendingIds.contains l.id then { l with blockchainTx := some batchId } else l)
    (BatchResp.processed batchId chain.merkleRoot chain.currentHash pending.length,
     { auditLogs := logs', auditBatches := batches' })

/-! ## verify-with-limit handler state (verify-with-limit/index.ts)

Database state touched by the handler: verification_attempts rows, the
students rows (verification_count and verification_limit are nullable
columns, read through the JavaScript `|| 0` and `|| 5` coalescing, for
which 0 is also falsy), transcripts rows, and the audit_logs table (which
this handler never writes).  `now` is `Date.now()`; `updateFails` models
the students update being rejected (the handler logs the error and
continues). -/

structure AttemptRow where
  studentId : Option String
  verificationId : String
  attemptedAt : Nat
  success : Bool
deriving DecidableEq

structure StudentRow where
  id : String
  verificationCount : Option Nat
  verificationLimit : Option Nat
deriving DecidableEq

structure TranscriptRow where
  verificationId : String
  studentId : String
deriving DecidableEq

structure VerifyDb where
  attempts : List AttemptRow
  students : List StudentRow
  transcripts : List TranscriptRow
  auditLogs : List AuditLogRow
deriving DecidableEq

/-- JavaScript `x || d` over a nullable numeric column: null and 0 are falsy. -/
def jsOr (x : Option Nat) (d : Nat) : Nat :=
  match x with
  | none => d
  | some 0 => d
  | some (n + 1) => n + 1

inductive VerifyResp where
  | duplicate
  | invalidId
  | limitExceeded (verificationCount verificationLimit : Nat)
  | verified (verificationCount verificationLimit remaining : Nat)
deriving DecidableEq

/-- The recent-attempt query: verification_id equal and attempted_at within the
last 5000 milliseconds. -/
def recentAttempts (db : VerifyDb) (vid : String) (now : Nat) : List AttemptRow :=
  db.attempts.filter (fun a => a.verificationId == vid && now - 5000 ≤ a.attemptedAt)

/-- The verify-with-limit serve handler.  The transcript query inner-joins the
student row, so a missing student behaves like a missing transcript. -/
def verifyWithLimit (db : VerifyDb) (vid : String) (now : Nat) (updateFails : Bool) :
    VerifyResp × VerifyDb :=
  if (recentAttempts db vid now).any (fun a => a.success) then
    (VerifyResp.duplicate, db)
  else
    match db.transcripts.find? (fun t => t.verificationId == vid) with
    | none =>
      (VerifyResp.invalidId,
       { db with attempts := db.attempts ++ [⟨none, vid, now, false⟩] })
    | some t =>
      match db.students.find? (fun s => s.id == t.studentId) with
      | none =>
        (VerifyResp.invalidId,
         { db with attempts := db.attempts ++ [⟨none, vid, now, false⟩] })
      | some s =>
        let verificationCount := jsOr s.verificationCount 0
        let verificationLimit := jsOr s.verificationLimit 5
        if verificationCount ≥ verificationLimit then
          (VerifyResp.limitExceeded verificationCount verificationLimit,
           { db with attempts := db.attempts ++ [⟨some s.id, vid, now, false⟩] })
        else
          let students' :=
            if updateFails then db.students
            else db.students.map (fun st =>
              if st.id == s.id then { st with verificationCount := some (verificationCount + 1) }
              else st)
          (VerifyResp.verified (verificationCount + 1) verificationLimit
             (verificationLimit - (verificationCount + 1)),
           { db with students := students',
                     attempts := db.attempts ++ [⟨some s.id, vid, now, true⟩] })

/-- The reset-verification-count serve handler, after its authorization checks
have passed (the caller is the owning institution of the student): set
verification_count to 0 and log a RESET_BY_INSTITUTION attempt row. -/
def resetVerificationCount (db : VerifyDb) (studentId : String) (now : Nat) : VerifyDb :=
  if db.students.any (fun s => s.id == studentId) then
    { db with
      students := db.students.map (fun s =>
        if s.id == studentId then { s with verificationCount := some 0 } else s),
      attempts := db.attempts ++ [⟨some studentId, "RESET_BY_INSTITUTION", now, true⟩] }
  else db

inductive VtResp where
  | rateLimited
  | invalid
  | found
deriving DecidableEq

/-- The verify-transcript serve handler, reduced to its audit-trail effect:
`rateLimitOk` is the result of the check_verification_rate_limit rpc; the
log_audit_event rpc (one audit_logs insert) runs only on the path where the
transcript row was found. -/
def verifyTranscript (db : VerifyDb) (vid : String) (now : Nat) (rateLimitOk : Bool) :
    VtResp × VerifyDb :=
  if !rateLimitOk then (VtResp.rateLimited, db)
  else
    match db.transcripts.find? (fun t => t.verificationId == vid) with
    | none => (VtResp.invalid, db)
    | some _ =>
      (VtResp.found,
       { db with auditLogs :=
           db.auditLogs ++ [⟨db.auditLogs.length, "transcript_verification", now, none⟩] })

/-! ## check_verification_rate_limit (SQL function, migration source)

State is the single verification_rate_limits row for one IP address (the
table has a unique constraint on ip_address, targeted by the ON CONFLICT
clauses).  Time is in seconds; `now - 3600` uses truncated `Nat`
subtraction, which agrees with the SQL interval arithmetic for
`now ≥ 3600` (all scenarios below).  The function returns only a boolean;
the block deadline lives in the row it persists. -/

structure RateLimitRow where
  attemptCount : Nat
  lastAttemptAt : Nat
  blockedUntil : Option Nat
  verificationId : Option String
deriving DecidableEq

def checkVerificationRateLimit (st : Option RateLimitRow) (vid : Option String) (now : Nat) :
    Bool × Option RateLimitRow :=
  let windowStart := now - 3600
  let blocked :=
    match st with
    | some r => match r.blockedUntil with
      | some b => decide (b > now)
      | none => false
    | none => false
  if blocked then (false, st)
  else
    let currentAttempts :=
      match st with
      | some r => if r.lastAttemptAt > windowStart then r.attemptCount else 0
      | none => 0
    if currentAttempts ≥ 20 then
      let r' :=
        match st with
        | some r => { r with blockedUntil := some (now + 3600), lastAttemptAt := now,
                             attemptCount := r.attemptCount + 1 }
        | none => ⟨1, now, some (now + 3600), vid⟩
      (false, some r')
    else
      let r' :=
        match st with
        | some r => { r with attemptCount := r.attemptCount + 1, lastAttemptAt := now,
                             verificationId := match vid with
                               | some v => some v
                               | none => r.verificationId }
        | none => ⟨1, now, none, vid⟩
      (true, some r')

/-- Run a sequence of rate-limit checks (one per timestamp) against one key,
threading the row state, collecting the returned booleans. -/
def runRateLimit : List Nat → Option RateLimitRow → List Bool × Option RateLimitRow
  | [], st => ([], st)
  | t :: ts, st =>
    let r := checkVerificationRateLimit st none t
    let rest := runRateLimit ts r.2
    (r.1 :: rest.1, rest.2)

/-! ## EncryptionCodec (spec section 4.5)

Modelled from the spec: the repository encrypts audit payloads with
WebCrypto AES-GCM inside `encryptAuditData` (blockchain-audit/index.ts)
but contains no decrypt implementation anywhere; the decrypt contract and
its fail-closed authentication-tag check exist only in the specification.
The AEAD is therefore modelled idealised and executable: a keystream
cipher for confidentiality plus an authentication tag that is an injective
function of (key, nonce, ciphertext), so that decryption fails closed on
any modification, mirroring the spec requirement that any bit-flip or
wrong key causes an IntegrityError rather than unauthenticated output. -/

/-- Injective encoding of a byte list into one natural (the ideal MAC core). -/
def natPairList : List Nat → Nat
  | [] => 0
  | x :: xs => Nat.pair x (natPairList xs) + 1

/-- The ideal authentication tag over key, nonce and ciphertext. -/
def macTag (key nonce : Nat) (ct : List Nat) : Nat := natPairList (key :: nonce :: ct)

/-- Keystream byte `i` for a given key and nonce. -/
def ksByte (key nonce i : Nat) : Nat := Nat.pair (Nat.pair key nonce) i % 256

/-- XOR a byte list against the keystream starting at index `i`. -/
def xorStream (key nonce : Nat) : Nat → List Nat → List Nat
  | _, [] => []
  | i, b :: bs => (b ^^^ ksByte key nonce i) :: xorStream key nonce (i + 1) bs

/-- A stored encrypted payload: nonce, ciphertext bytes and authentication tag. -/
structure EncBlob where
  nonce : Nat
  ct : List Nat
  tag : Nat
deriving DecidableEq

inductive DecryptResult where
  | ok (pt : List Nat)
  | integrityError
deriving DecidableEq

/-- Modelled from the spec: `encrypt(plaintextEvent, key)` with an explicit
nonce (the source draws it from crypto.getRandomValues). -/
def aeadEncrypt (pt : List Nat) (key nonce : Nat) : EncBlob :=
  let ct := xorStream key nonce 0 pt
  ⟨nonce, ct, macTag key nonce ct⟩

/-- Modelled from the spec: `decrypt(ciphertextBlob, key)` fails closed with a
distinguishable IntegrityError whenever the tag does not authenticate. -/
def aeadDecrypt (blob : EncBlob) (key : Nat) : DecryptResult :=
  if macTag key blob.nonce blob.ct = blob.tag then
    DecryptResult.ok (xorStream key blob.nonce 0 blob.ct)
  else DecryptResult.integrityError

theorem natPairList_inj : ∀ (l l' : List Nat), natPairList l = natPairList l' → l = l'
  | [], [], _ => rfl
  | [], _ :: _, h => by simp [natPairList] at h
  | _ :: _, [], h => by simp [natPairList] at h
  | x :: xs, x' :: xs', h => by
    simp only [natPairList, Nat.add_right_cancel_iff] at h
    obtain ⟨hx, hxs⟩ := Nat.pair_eq_pair.mp h
    rw [hx, natPairList_inj xs xs' hxs]

theorem xorStream_invol (key nonce : Nat) :
    ∀ (i : Nat) (l : List Nat), xorStream key nonce i (xorStream key nonce i l) = l := by
  intro i l
  induction l generalizing i with
  | nil => rfl
  | cons b bs ih =>
    simp [xorStream, Nat.xor_assoc, ih (i + 1)]

theorem xorStream_length (key nonce : Nat) :
    ∀ (i : Nat) (l : List Nat), (xorStream key nonce i l).length = l.length := by
  intro i l
  induction l generalizing i with
  | nil => rfl
  | cons b bs ih => simp [xorStream, ih (i + 1)]

/-! ## Structural lemmas about the Merkle level loop -/

/-- Induction principle following the two-at-a-time recursion of `nextLevel`. -/
theorem listPairInduction {P : List String → Prop} (h0 : P []) (h1 : ∀ a, P [a])
    (h2 : ∀ a b l, P l → P (a :: b :: l)) : ∀ l, P l := by
  have aux : ∀ (n : Nat) (l : List String), l.length ≤ n → P l := by
    intro n
    induction n with
    | zero =>
      intro l hl
      cases l with
      | nil => exact h0
      | cons a t => simp at hl
    | succ n ih =>
      intro l hl
      cases l with
      | nil => exact h0
      | cons a t =>
        cases t with
        | nil => exact h1 a
        | cons b rest =>
          refine h2 a b rest (ih rest ?_)
          simp only [List.length_cons] at hl
          omega
  intro l
  exact aux l.length l (Nat.le_refl _)

theorem nextLevel_length : ∀ l : List String, (nextLevel l).length = (l.length + 1) / 2 := by
  refine listPairInduction rfl (fun a => by simp [nextLevel]) ?_
  intro a b l ih
  simp only [nextLevel, List.length_cons, ih]
  omega

theorem getRootGo_succ (f : Nat) (l : List String) :
    getRootGo (f + 1) l = if l.length > 1 then getRootGo f (nextLevel l) else l := rfl

theorem getRootGo_short : ∀ (f : Nat) (l : List String), l.length ≤ 1 → getRootGo f l = l := by
  intro f
  induction f with
  | zero => intro l _; rfl
  | succ f _ =>
    intro l hl
    rw [getRootGo_succ, if_neg (by omega)]

theorem getRootGo_congr :
    ∀ (n f g : Nat) (l : List String), l.length ≤ n → l.length ≤ f → l.length ≤ g →
      getRootGo f l = getRootGo g l := by
  intro n
  induction n with
  | zero =>
    intro f g l hn _ _
    rw [getRootGo_short f l (by omega), getRootGo_short g l (by omega)]
  | succ n ih =>
    intro f g l hn hf hg
    by_cases h1 : l.length ≤ 1
    · rw [getRootGo_short f l h1, getRootGo_short g l h1]
    · obtain ⟨f0, rfl⟩ : ∃ f0, f = f0 + 1 := ⟨f - 1, by omega⟩
      obtain ⟨g0, rfl⟩ : ∃ g0, g = g0 + 1 := ⟨g - 1, by omega⟩
      rw [getRootGo_succ, getRootGo_succ, if_pos (by omega), if_pos (by omega)]
      refine ih f0 g0 (nextLevel l) ?_ ?_ ?_ <;> rw [nextLevel_length] <;> omega

/-- One bottom-up step of root computation: for at least two leaves, the root
is the root of the next (pairwise-hashed) level. -/
theorem getRoot_step (leaves : List String) (h : 2 ≤ leaves.length) :
    (MerkleTree.mk leaves).getRoot = (MerkleTree.mk (nextLevel leaves)).getRoot := by
  have hnl : (nextLevel leaves).length = (leaves.length + 1) / 2 := nextLevel_length leaves
  obtain ⟨k, hk⟩ : ∃ k, leaves.length = k + 2 := ⟨leaves.length - 2, by omega⟩
  simp only [MerkleTree.getRoot]
  rw [if_neg (by omega), if_neg (by omega)]
  by_cases h1 : (nextLevel leaves).length = 1
  · rw [if_neg (by omega), if_pos h1]
    rw [hk, getRootGo_succ, if_pos (by omega)]
    rw [getRootGo_short (k + 1) (nextLevel leaves) (by omega)]
  · rw [if_neg (by omega), if_neg h1]
    rw [hk, getRootGo_succ, if_pos (by omega)]
    have := getRootGo_congr (nextLevel leaves).length (k + 1) (nextLevel leaves).length
      (nextLevel leaves) (Nat.le_refl _) (by omega) (Nat.le_refl _)
    rw [this]

/-- An unpaired trailing node of an odd-length level is carried up unchanged. -/
theorem nextLevel_odd_carry :
    ∀ (lv : List String) (x : String), lv.length % 2 = 0 →
      nextLevel (lv ++ [x]) = nextLevel lv ++ [x] := by
  have key : ∀ lv : List String, ∀ x : String, lv.length % 2 = 0 →
      nextLevel (lv ++ [x]) = nextLevel lv ++ [x] := by
    refine listPairInduction ?_ ?_ ?_
    · intro x _; rfl
    · intro a x h; simp at h
    · intro a b l ih x h
      simp only [List.length_cons] at h
      simp only [List.cons_append, nextLevel, List.append_eq]
      rw [ih x (by omega)]
  exact key

theorem getD_set_self :
    ∀ (l : List Nat) (i b : Nat), i < l.length → (l.set i b).getD i 0 = b := by
  intro l
  induction l with
  | nil => intro i b h; simp at h
  | cons a t ih =>
    intro i b h
    cases i with
    | zero => rfl
    | succ j =>
      simp only [List.set, List.getD_cons_succ]
      exact ih j b (by simp only [List.length_cons] at h; omega)

/-! ## Claim theorems -/

def c1Db : VerifyDb := ⟨[], [⟨"s1", some 5, some 5⟩], [⟨"VT-1", "s1"⟩], []⟩

/-- C1: with used = limit = 5 the handler returns the limit-exceeded result
reporting used 5 and limit 5 and leaves the counter at 5; after the
institution reset the counter is 0; the next call is allowed with used 1 and
limit 5. -/
theorem claim_C1_quota_scenario :
    (verifyWithLimit c1Db "VT-1" 10000 false).1 = VerifyResp.limitExceeded 5 5 ∧
    (verifyWithLimit c1Db "VT-1" 10000 false).2.students = [⟨"s1", some 5, some 5⟩] ∧
    (resetVerificationCount (verifyWithLimit c1Db "VT-1" 10000 false).2 "s1" 11000).students
      = [⟨"s1", some 0, some 5⟩] ∧
    (verifyWithLimit
        (resetVerificationCount (verifyWithLimit c1Db "VT-1" 10000 false).2 "s1" 11000)
        "VT-1" 12000 false).1 = VerifyResp.verified 1 5 4 ∧
    (verifyWithLimit
        (resetVerificationCount (verifyWithLimit c1Db "VT-1" 10000 false).2 "s1" 11000)
        "VT-1" 12000 false).2.students = [⟨"s1", some 1, some 5⟩] := by
  decide

/-- C2: from no prior record, 20 rate-limit checks in one hour are all
allowed and drive the attempt count to 20; the 21st at the same instant is
refused and persists blocked_until one hour ahead; a check 61 minutes after
the first attempt is allowed again. -/
theorem claim_C2_sliding_window_scenario :
    (runRateLimit (List.replicate 20 7200) none).1 = List.replicate 20 true ∧
    (runRateLimit (List.replicate 20 7200) none).2 = some ⟨20, 7200, none, none⟩ ∧
    (checkVerificationRateLimit (some ⟨20, 7200, none, none⟩) none 7200).1 = false ∧
    (checkVerificationRateLimit (some ⟨20, 7200, none, none⟩) none 7200).2
      = some ⟨21, 7200, some 10800, none⟩ ∧
    (checkVerificationRateLimit (some ⟨21, 7200, some 10800, none⟩) none 10860).1 = true := by
  decide

/-- C3 (amended): the verify-with-limit handler writes no audit event on any
path, and the verify-transcript handler writes exactly one audit event
exactly on the rate-limit-passed, transcript-found path; so audit events do
not correspond one-to-one to verification calls. -/
theorem claim_C3_audit_events_per_call :
    ∀ (db : VerifyDb) (vid : String) (now : Nat) (uf rl : Bool),
      (verifyWithLimit db vid now uf).2.auditLogs = db.auditLogs ∧
      (verifyTranscript db vid now rl).2.auditLogs.length =
        db.auditLogs.length +
          (if rl = true ∧ (db.transcripts.find? (fun t => t.verificationId == vid)).isSome
           then 1 else 0) := by
  intro db vid now uf rl
  constructor
  · simp only [verifyWithLimit]
    repeat' split
    all_goals rfl
  · simp only [verifyTranscript]
    cases rl with
    | false => simp
    | true =>
      cases h : db.transcripts.find? (fun t => t.verificationId == vid) with
      | none => simp [h]
      | some t => simp [h]

def c3Db : VerifyDb := ⟨[⟨some "s1", "VT-1", 10000, true⟩], [⟨"s1", some 1, some 5⟩],
  [⟨"VT-1", "s1"⟩], []⟩

/-- C3 counterexample: one verification call, suppressed as a duplicate,
produces zero audit events, not one. -/
theorem counterexample_C3_duplicate_without_audit :
    (verifyWithLimit c3Db "VT-1" 11000 false).1 = VerifyResp.duplicate ∧
    (verifyWithLimit c3Db "VT-1" 11000 false).2.auditLogs.length = 0 := by
  decide

def c4Db : VerifyDb := ⟨[], [⟨"s1", some 0, some 5⟩], [⟨"VT-1", "s1"⟩], []⟩

/-- C4: a successful verification followed by an identical call one second
later (inside the 5-second suppression window) leaves exactly one attempt
row and one quota increment; the repeat returns the already-completed signal
and changes nothing. -/
theorem claim_C4_duplicate_suppression :
    (verifyWithLimit c4Db "VT-1" 10000 false).1 = VerifyResp.verified 1 5 4 ∧
    (verifyWithLimit c4Db "VT-1" 10000 false).2.attempts.length = 1 ∧
    (verifyWithLimit c4Db "VT-1" 10000 false).2.students = [⟨"s1", some 1, some 5⟩] ∧
    (verifyWithLimit (verifyWithLimit c4Db "VT-1" 10000 false).2 "VT-1" 11000 false).1
      = VerifyResp.duplicate ∧
    (verifyWithLimit (verifyWithLimit c4Db "VT-1" 10000 false).2 "VT-1" 11000 false).2
      = (verifyWithLimit c4Db "VT-1" 10000 false).2 := by
  decide

/-- C9: decryption with the correct key of an untampered payload returns the
original plaintext, and any single-byte modification of the stored payload —
a ciphertext byte, the tag, or the nonce — makes decryption fail with the
distinguishable IntegrityError rather than return any structure. -/
theorem claim_C9_aead_integrity
    (pt : List Nat) (key nonce i b t n : Nat)
    (hi : i < pt.length)
    (hb : b ≠ (aeadEncrypt pt key nonce).ct.getD i 0)
    (ht : t ≠ (aeadEncrypt pt key nonce).tag)
    (hn : n ≠ nonce) :
    aeadDecrypt (aeadEncrypt pt key nonce) key = DecryptResult.ok pt ∧
    aeadDecrypt ⟨nonce, (aeadEncrypt pt key nonce).ct.set i b,
        (aeadEncrypt pt key nonce).tag⟩ key = DecryptResult.integrityError ∧
    aeadDecrypt ⟨nonce, (aeadEncrypt pt key nonce).ct, t⟩ key
      = DecryptResult.integrityError ∧
    aeadDecrypt ⟨n, (aeadEncrypt pt key nonce).ct,
        (aeadEncrypt pt key nonce).tag⟩ key = DecryptResult.integrityError := by
  have hct : (aeadEncrypt pt key nonce).ct = xorStream key nonce 0 pt := rfl
  have htag : (aeadEncrypt pt key nonce).tag
      = macTag key nonce (xorStream key nonce 0 pt) := rfl
  refine ⟨?_, ?_, ?_, ?_⟩
  · simp [aeadDecrypt, aeadEncrypt, xorStream_invol]
  · rw [aeadDecrypt, if_neg]
    intro h
    have hlist := natPairList_inj _ _ h
    simp only [macTag, List.cons.injEq] at hlist
    have hset : ((aeadEncrypt pt key nonce).ct.set i b) = (aeadEncrypt pt key nonce).ct :=
      hlist.2.2
    have hlen : i < (aeadEncrypt pt key nonce).ct.length := by
      rw [hct, xorStream_length]; exact hi
    have := getD_set_self ((aeadEncrypt pt key nonce).ct) i b hlen
    rw [hset] at this
    exact hb this.symm
  · rw [aeadDecrypt, if_neg]
    intro h
    exact ht h.symm
  · rw [aeadDecrypt, if_neg]
    intro h
    have hlist := natPairList_inj _ _ h
    simp only [macTag, List.cons.injEq] at hlist
    exact hn hlist.2.1

/-- C9 witness: the scenario at concrete values. -/
theorem witness_C9_aead_integrity :
    (0 < [104, 105, 33].length) ∧
    ((aeadEncrypt [104, 105, 33] 7 3).ct.getD 0 0 + 1
      ≠ (aeadEncrypt [104, 105, 33] 7 3).ct.getD 0 0) ∧
    ((aeadEncrypt [104, 105, 33] 7 3).tag + 1 ≠ (aeadEncrypt [104, 105, 33] 7 3).tag) ∧
    ((4 : Nat) ≠ 3) ∧
    (aeadDecrypt (aeadEncrypt [104, 105, 33] 7 3) 7 = DecryptResult.ok [104, 105, 33] ∧
     aeadDecrypt ⟨3, (aeadEncrypt [104, 105, 33] 7 3).ct.set 0
         ((aeadEncrypt [104, 105, 33] 7 3).ct.getD 0 0 + 1),
         (aeadEncrypt [104, 105, 33] 7 3).tag⟩ 7 = DecryptResult.integrityError ∧
     aeadDecrypt ⟨3, (aeadEncrypt [104, 105, 33] 7 3).ct,
         (aeadEncrypt [104, 105, 33] 7 3).tag + 1⟩ 7 = DecryptResult.integrityError ∧
     aeadDecrypt ⟨4, (aeadEncrypt [104, 105, 33] 7 3).ct,
         (aeadEncrypt [104, 105, 33] 7 3).tag⟩ 7 = DecryptResult.integrityError) :=
  ⟨by decide, by decide, by decide, by decide,
   claim_C9_aead_integrity [104, 105, 33] 7 3 0
     ((aeadEncrypt [104, 105, 33] 7 3).ct.getD 0 0 + 1)
     ((aeadEncrypt [104, 105, 33] 7 3).tag + 1) 4
     (by decide) (by decide) (by decide) (by decide)⟩

/-- C10 (implicit): on the quota-consuming success path with the students
update failing, the handler still returns the verified response reporting
count + 1, leaves the stored students (and so the counter) unchanged, and
still appends a successful attempt row. -/
theorem claim_C10_update_failure_ignored
    (db : VerifyDb) (vid : String) (now : Nat) (t : TranscriptRow) (s : StudentRow)
    (hnodup : (recentAttempts db vid now).any (fun a => a.success) = false)
    (ht : db.transcripts.find? (fun tr => tr.verificationId == vid) = some t)
    (hs : db.students.find? (fun st => st.id == t.studentId) = some s)
    (hlt : jsOr s.verificationCount 0 < jsOr s.verificationLimit 5) :
    (verifyWithLimit db vid now true).1 =
      VerifyResp.verified (jsOr s.verificationCount 0 + 1) (jsOr s.verificationLimit 5)
        (jsOr s.verificationLimit 5 - (jsOr s.verificationCount 0 + 1)) ∧
    (verifyWithLimit db vid now true).2.students = db.students ∧
    (verifyWithLimit db vid now true).2.attempts =
      db.attempts ++ [⟨some s.id, vid, now, true⟩] := by
  simp only [verifyWithLimit, hnodup, ht, hs]
  rw [if_neg (Nat.not_le.mpr hlt)]
  exact ⟨rfl, rfl, rfl⟩

def c10Db : VerifyDb := ⟨[], [⟨"s1", some 2, some 5⟩], [⟨"VT-9", "s1"⟩], []⟩

/-- C10 witness: the scenario at a concrete database. -/
theorem witness_C10_update_failure_ignored :
    ((recentAttempts c10Db "VT-9" 50000).any (fun a => a.success) = false) ∧
    (c10Db.transcripts.find? (fun tr => tr.verificationId == "VT-9")
      = some ⟨"VT-9", "s1"⟩) ∧
    (c10Db.students.find? (fun st => st.id == "s1") = some ⟨"s1", some 2, some 5⟩) ∧
    (jsOr (some 2) 0 < jsOr (some 5) 5) ∧
    ((verifyWithLimit c10Db "VT-9" 50000 true).1 =
       VerifyResp.verified (jsOr (some 2) 0 + 1) (jsOr (some 5) 5)
         (jsOr (some 5) 5 - (jsOr (some 2) 0 + 1)) ∧
     (verifyWithLimit c10Db "VT-9" 50000 true).2.students = c10Db.students ∧
     (verifyWithLimit c10Db "VT-9" 50000 true).2.attempts =
       c10Db.attempts ++ [⟨some "s1", "VT-9", 50000, true⟩]) :=
  ⟨by decide, by decide, by decide, by decide,
   claim_C10_update_failure_ignored c10Db "VT-9" 50000 ⟨"VT-9", "s1"⟩ ⟨"s1", some 2, some 5⟩
     (by decide) (by decide) (by decide) (by decide)⟩

/-- C5 (amended): for fixed events and previousHash, the merkle_root is
identical across runs and the previous_hash is passed through; the
current_hash, however, additionally embeds the Date.now() reading
(`timestamp`), so it is identical across two runs only when the clock
reading is identical. -/
theorem claim_C5_buildBatch_determinism :
    ∀ (eventJsons : List String) (previousHash : String) (t1 t2 : Nat),
      (createAuditChain eventJsons previousHash t1).merkleRoot
        = (createAuditChain eventJsons previousHash t2).merkleRoot ∧
      (createAuditChain eventJsons previousHash t1).previousHash = previousHash ∧
      (createAuditChain eventJsons previousHash t1).timestamp = t1 ∧
      (createAuditChain eventJsons previousHash t1).currentHash
        = sha256hex (blockDataJson previousHash
            (createAuditChain eventJsons previousHash t1).merkleRoot t1 eventJsons.length) := by
  intro eventJsons previousHash t1 t2
  exact ⟨rfl, rfl, rfl, rfl⟩

/-- C5 counterexample: identical events and identical previousHash, but two
different Date.now() readings, give different current_hash values — the hash
computation has a run-dependent input. -/
theorem counterexample_C5_clock_dependence :
    (createAuditChain ["\x7b\"action\":\"login\"\x7d"] genesisHash 1).currentHash
      ≠ (createAuditChain ["\x7b\"action\":\"login\"\x7d"] genesisHash 2).currentHash := by
  decide

/-- The audit chain that process_batch builds from the current store state. -/
def batchChainOf (db : AuditDb) (now : Nat) : AuditChain :=
  createAuditChain ((pendingOf db).map (fun l => l.payload)) (latestStoredHash db) now

/-- The simulated batch id process_batch obtains for the current store state. -/
def batchIdOf (db : AuditDb) (now : Nat) : String :=
  recordAuditBatchSim (batchChainOf db now)
    (metadataJson (pendingOf db).length
      (listMin ((pendingOf db).map (fun l => l.createdAt)))
      (listMax ((pendingOf db).map (fun l => l.createdAt))))

/-- The audit_batches row process_batch inserts. -/
def newBatchRow (db : AuditDb) (now : Nat) : AuditBatchRow :=
  ⟨batchIdOf db now, (batchChainOf db now).previousHash, (batchChainOf db now).currentHash,
   (batchChainOf db now).merkleRoot, (pendingOf db).length, batchIdOf db now,
   (batchChainOf db now).timestamp⟩

/-- Unfolding of `processBatch` in terms of the named components. -/
theorem processBatch_eq (db : AuditDb) (now : Nat) (bf uf : Bool) :
    processBatch db now bf uf =
      if (pendingOf db).isEmpty then (BatchResp.noPending, db)
      else
        (BatchResp.processed (batchIdOf db now) (batchChainOf db now).merkleRoot
           (batchChainOf db now).currentHash (pendingOf db).length,
         ⟨(if uf then db.auditLogs
           else db.auditLogs.map (fun l =>
             if ((pendingOf db).map (fun p => p.id)).contains l.id
             then { l with blockchainTx := some (batchIdOf db now) } else l)),
          (if bf then db.auditBatches else newBatchRow db now :: db.auditBatches)⟩) := rfl

/-- C6: every audit batch the process_batch handler persists links to the
store head: its previous_hash is the current_hash of the latest stored batch,
or the 64-zero genesis constant when no batch exists; no out-of-order batch
is ever persisted. -/
theorem claim_C6_chain_linkage :
    ∀ (db : AuditDb) (now : Nat) (bf uf : Bool),
      (processBatch db now bf uf).2.auditBatches = db.auditBatches ∨
      ∃ nb, (processBatch db now bf uf).2.auditBatches = nb :: db.auditBatches ∧
        nb.previousHash = latestStoredHash db := by
  intro db now bf uf
  rw [processBatch_eq]
  cases hp : (pendingOf db).isEmpty with
  | true => left; simp
  | false =>
    cases bf with
    | true => left; simp
    | false => right; exact ⟨newBatchRow db now, by simp, rfl⟩

/-- C7 (amended): batch persistence and event sealing are two independent
store writes whose failures the handler only logs: the batch row is inserted
iff there are pending events and the batch insert is not rejected, and the
pending events are marked with the (intended) batch id iff the update is not
rejected — when both succeed the events carry the persisted batch id, but a
single rejected write leaves the other write in place. -/
theorem claim_C7_sealing_effects :
    ∀ (db : AuditDb) (now : Nat) (bf uf : Bool),
      (processBatch db now bf uf).2.auditBatches =
        (if (pendingOf db).isEmpty = true ∨ bf = true then db.auditBatches
         else newBatchRow db now :: db.auditBatches) ∧
      (processBatch db now bf uf).2.auditLogs =
        (if (pendingOf db).isEmpty = true ∨ uf = true then db.auditLogs
         else db.auditLogs.map (fun l =>
           if ((pendingOf db).map (fun p => p.id)).contains l.id
           then { l with blockchainTx := some ((newBatchRow db now).batchId) } else l)) := by
  intro db now bf uf
  rw [processBatch_eq]
  cases hp : (pendingOf db).isEmpty with
  | true => simp
  | false =>
    cases bf with
    | true => cases uf with
      | true => simp
      | false => simp [newBatchRow]
    | false => cases uf with
      | true => simp
      | false => simp [newBatchRow]

def c7Db : AuditDb := ⟨[⟨0, "\x7b\"action\":\"login\"\x7d", 100, none⟩], []⟩

/-- C7 counterexample: with one pending event and the audit_logs update
rejected, the handler persists the batch while the event stays unsealed —
a reachable state the all-or-nothing claim forbids. -/
theorem counterexample_C7_half_sealed_state :
    (processBatch c7Db 200 false true).2.auditBatches.length = 1 ∧
    (processBatch c7Db 200 false true).2.auditLogs = c7Db.auditLogs ∧
    (pendingOf c7Db).length = 1 := by
  refine ⟨rfl, rfl, rfl⟩

/-- C8 (amended): `getRoot` pairwise-hashes adjacent nodes bottom-up; an
unpaired trailing node of an odd-length level is carried up unchanged (not
duplicated); a tree of exactly one leaf yields that leaf as the root; and a
tree of zero leaves yields the empty string rather than raising an error
(the handler guards against empty batches before construction). -/
theorem claim_C8_merkle_construction
    (leaves lv rest : List String) (x l a b : String)
    (hlv : lv.length % 2 = 0)
    (hlen : 2 ≤ leaves.length) :
    (MerkleTree.mk []).getRoot = "" ∧
    (MerkleTree.mk [l]).getRoot = l ∧
    nextLevel (a :: b :: rest) = pairwiseHash a b :: nextLevel rest ∧
    nextLevel (lv ++ [x]) = nextLevel lv ++ [x] ∧
    (MerkleTree.mk leaves).getRoot = (MerkleTree.mk (nextLevel leaves)).getRoot :=
  ⟨rfl, rfl, rfl, nextLevel_odd_carry lv x hlv, getRoot_step leaves hlen⟩

/-- C8 witness: the structural facts at concrete levels. -/
theorem witness_C8_merkle_construction :
    (["aa", "bb"].length % 2 = 0) ∧
    (2 ≤ ["aa", "bb", "cc"].length) ∧
    ((MerkleTree.mk []).getRoot = "" ∧
     (MerkleTree.mk ["leaf"]).getRoot = "leaf" ∧
     nextLevel ("x1" :: "x2" :: []) = pairwiseHash "x1" "x2" :: nextLevel [] ∧
     nextLevel (["aa", "bb"] ++ ["cc"]) = nextLevel ["aa", "bb"] ++ ["cc"] ∧
     (MerkleTree.mk ["aa", "bb", "cc"]).getRoot
       = (MerkleTree.mk (nextLevel ["aa", "bb", "cc"])).getRoot) :=
  ⟨by decide, by decide,
   claim_C8_merkle_construction ["aa", "bb", "cc"] ["aa", "bb"] [] "cc" "leaf" "x1" "x2"
     (by decide) (by decide)⟩

/-- C8 counterexample: a tree built from zero leaves does not raise an error;
`getRoot` returns the empty string. -/
theorem counterexample_C8_empty_tree_root :
    (MerkleTree.mk []).getRoot = "" := rfl
